import Mathlib

/-!
# Verification of the Throughmark consensus-and-verification pipeline

Shallow embedding of the analysis pipeline in `src/llm/analyzer.ts`
(`ImageAnalyzer.analyze`, `performInitialAnalysis`, `performAnalysis`,
`calculateCost`), the image transform in `src/image/processor.ts`
(`ImageProcessor.transformImage`), the cell-label construction in
`src/grid/generator.ts` / `src/utils/gridAccuracy.ts`, and the static
price table in `src/llm/types.ts` (`MODEL_PRICING`).

Conventions of the embedding:
* LLM backends are external collaborators; a backend response is modelled
  by the *outcome* of the operations the analyzer performs on it
  (`typeof response.text === "string"` check, `JSON.parse`, field access),
  not by raw bytes.  `JSON.parse` is an external library function, so a
  response text is represented by its parse result.
* JS `Map` iteration order (insertion order) is modelled by an explicit
  association list; `Array.prototype.sort` (stable, comparator-driven) is
  modelled by the stable `List.insertionSort` — for a consistent comparator
  the ECMA-262 specification determines the sorted result uniquely, so any
  stable sorting algorithm is a faithful model.
* Token counts are natural numbers; prices and temperatures are rationals
  (`ℚ`).  JS division by zero of a zero numerator (`0/0 = NaN`) is modelled
  by `Option ℚ` with `none` for `NaN`.
* Images are modelled symbolically: an image value records which source
  buffer it came from and which overlay layers were composited onto it.
-/

namespace Throughmark

/-! ## Data model -/

/-- Token usage as reported by a backend call (`usage.input_tokens`,
`usage.output_tokens` in `src/llm/types.ts`). -/
structure Usage where
  input_tokens : Nat
  output_tokens : Nat
deriving DecidableEq, Repr

/-- The parse-level content of one consensus pass's response text
(`response.text` in `performInitialAnalysis`).  `JSON.parse` is external, so
the text is represented by its parse outcome:
* `unparseable` — `JSON.parse(response.text)` throws;
* `noCells` — the text parses, but `parsed.cells` is absent or falsy, so
  `parsed.cells || []` yields `[]`;
* `cellsArr cs` — `parsed.cells` is an array of strings `cs` (the documented
  shape; an empty array is truthy in JS, so it is returned as-is, which
  coincides with the `[]` fallback);
* `cellsStr s` — `parsed.cells` is a truthy non-array value, represented
  here by a string `s`; the code returns it unchanged and `results.flat()`
  keeps it as a single element. -/
inductive PassText where
  | unparseable
  | noCells
  | cellsArr (cells : List String)
  | cellsStr (s : String)
deriving DecidableEq, Repr

/-- One consensus pass's response object.  `text = none` models a response
whose `text` field is missing or not a string (the
`typeof response.text !== "string"` check); the whole response being `null`
or `undefined` (`!response`) is modelled by `Option PassResponse = none` at
the use site. -/
structure PassResponse where
  text : Option PassText
  usage : Option Usage
deriving DecidableEq, Repr

/-- A region as produced by the refinement stage (`Region` in
`src/llm/analyzer.ts`). -/
structure Region where
  title : String
  description : String
  cells : List String
  details : String
deriving DecidableEq, Repr

/-- Annotation kinds (`AnnotationType` in `src/llm/types.ts`). -/
inductive AnnotationType where
  | highlight
  | circle
  | arrow
deriving DecidableEq, Repr

/-! ## Numeric-aware string comparison

Model of `a.localeCompare(b, undefined, { numeric: true })` as used by the
sort in `performInitialAnalysis`.  Numeric collation splits each string into
maximal digit runs and non-digit characters, compares digit runs by numeric
value and other characters by code point (faithful for the ASCII
letter+digit cell labels this program sorts). -/

/-- A collation token: a maximal digit run (by numeric value) or a single
non-digit character. -/
inductive Tok where
  | num (n : Nat)
  | chr (c : Char)
deriving DecidableEq, Repr

/-- Tokenize a character list, carrying the value of the pending digit run.
Structural in the list so that it evaluates by `decide`/`rfl`. -/
def tokenizeAux : List Char → Option Nat → List Tok
  | [], none => []
  | [], some n => [.num n]
  | c :: cs, pending =>
    if c.isDigit then
      tokenizeAux cs (some ((pending.getD 0) * 10 + (c.toNat - 48)))
    else
      match pending with
      | some n => .num n :: .chr c :: tokenizeAux cs none
      | none => .chr c :: tokenizeAux cs none

/-- Sort key of a token.  Digits occupy code points 48–57, so relative to
any non-digit character a digit run compares the same way regardless of its
value: tokens are keyed into the buckets "characters below `'0'`" (0),
"digit runs" (1), "characters above `'9'`" (2), with the second component
ordering tokens within a bucket. -/
def tokKey : Tok → Nat × Nat
  | .num n => (1, n)
  | .chr c => (if c.toNat < 48 then 0 else 2, c.toNat)

/-- Lexicographic comparison of `Nat` pairs. -/
def pairCompare (a b : Nat × Nat) : Ordering :=
  if a.1 < b.1 then .lt
  else if b.1 < a.1 then .gt
  else if a.2 < b.2 then .lt
  else if b.2 < a.2 then .gt
  else .eq

/-- Lexicographic comparison of key lists. -/
def keysCompare : List (Nat × Nat) → List (Nat × Nat) → Ordering
  | [], [] => .eq
  | [], _ :: _ => .lt
  | _ :: _, [] => .gt
  | a :: as, b :: bs =>
    match pairCompare a b with
    | .eq => keysCompare as bs
    | o => o

/-- The collation key of a string. -/
def numericKey (s : String) : List (Nat × Nat) :=
  (tokenizeAux s.data none).map tokKey

/-- Model of `a.localeCompare(b, undefined, { numeric: true })` (sign
only). -/
def numericCompare (a b : String) : Ordering :=
  keysCompare (numericKey a) (numericKey b)

/-- The non-strict order induced by the comparator, i.e. `compare ≤ 0`;
this is the order the JS sort establishes. -/
def numericLe (a b : String) : Prop := numericCompare a b ≠ .gt

instance : DecidableRel numericLe := fun a b => by
  unfold numericLe; infer_instance

/-! ## Vote aggregation (`performInitialAnalysis`, lines 441–454)

```
const cellCounts = new Map<string, number>();
results.flat().forEach(cell => {
  cellCounts.set(cell, (cellCounts.get(cell) || 0) + 1);
});
const allCells = [...cellCounts.entries()]
  .filter(([_, count]) => count >= 2)
  .flatMap(([cell, count]) => Array(count).fill(cell))
  .sort((a, b) => a.localeCompare(b, undefined, \x7b numeric: true \x7d));
```

A JS `Map` iterates in insertion order; it is modelled by an association
list to which `bumpCount` applies the `set(cell, get(cell)+1)` step. -/

/-- One `cellCounts.set(cell, (cellCounts.get(cell) || 0) + 1)` step on the
insertion-ordered association list. -/
def bumpCount (m : List (String × Nat)) (cell : String) : List (String × Nat) :=
  if m.any (fun p => p.1 = cell) then
    m.map (fun p => if p.1 = cell then (p.1, p.2 + 1) else p)
  else
    m ++ [(cell, 1)]

/-- The `cellCounts` map after the `forEach` loop, as its insertion-ordered
entry list (`[...cellCounts.entries()]`). -/
def cellCounts (cells : List String) : List (String × Nat) :=
  cells.foldl bumpCount []

/-- `cellCounts.get(c) || 0`: the count stored under a key (first entry;
0 if absent). -/
def mapCount : List (String × Nat) → String → Nat
  | [], _ => 0
  | p :: rest, c => if p.1 = c then p.2 else mapCount rest c

/-- The aggregation tail of `performInitialAnalysis`: count every element of
`results.flat()`, keep entries with `count >= 2`, repeat each kept cell
`count` times, and sort with the numeric-aware comparator.
`Array.prototype.sort` is stable; with a consistent comparator the result is
the unique stable sort, modelled by `List.insertionSort`. -/
def aggregateCells (results : List (List String)) : List String :=
  (((cellCounts results.flatten).filter (fun p => 2 ≤ p.2)).flatMap
      (fun p => List.replicate p.2 p.1)).insertionSort numericLe

/-! ## Temperature schedule (`performInitialAnalysis`, lines 392–399)

```
const temperatures =
  this.client instanceof AnthropicClient
    ? Array(this.numPasses).fill(0).map((_, i) => 0.2 + (i * 0.6) / (this.numPasses - 1))
    : Array(this.numPasses).fill(0).map((_, i) => 0.4 + (i * 0.6) / (this.numPasses - 1));
```

For `numPasses = 1` the divisor is `0` and the numerator `0 * 0.6` is `0`,
so JS computes `0/0 = NaN`; `NaN` is modelled by `none`. -/

/-- JS number division restricted to the values arising here: the only
division by zero this code can perform is `0/0`, which is `NaN` (`none`). -/
def jsDiv (a b : ℚ) : Option ℚ :=
  if b = 0 then none else some (a / b)

/-- The per-pass temperature list.  `anthropic` is
`this.client instanceof AnthropicClient`; every other client (OpenAI or an
injected custom client) takes the second branch. -/
def temperatures (anthropic : Bool) (numPasses : Nat) : List (Option ℚ) :=
  (List.range numPasses).map (fun (i : Nat) =>
    (jsDiv ((i : ℚ) * (6 / 10)) ((numPasses : ℚ) - 1)).map
      (fun q => (if anthropic then 2 / 10 else 4 / 10) + q))

/-! ## Images and `ImageProcessor.transformImage` (`src/image/processor.ts`)

`transformImage` loads the input (file path or buffer), optionally
composites a grid-overlay SVG layer — **only when the input is not a
`Buffer`** (`if (options.addGrid && !Buffer.isBuffer(options.image))`) —
optionally composites a highlight layer when `options.regions` is
non-empty, and re-encodes to PNG.  The pixel contents are external
(`sharp`); an image is modelled by its provenance: a source buffer, or a
transform output recording base image and composited layers. -/

/-- An overlay layer composited by `transformImage`. -/
inductive Layer where
  | grid (rows cols : Nat)
  | highlight (regions : List Region) (annotations : List AnnotationType)
deriving DecidableEq, Repr

/-- Symbolic image values. -/
inductive Img where
  | source (id : Nat)
  | transformed (base : Img) (layers : List Layer)
deriving DecidableEq, Repr

/-- `options.image : string | Buffer`.  A path input also records the image
stored at that path. -/
inductive ImageInput where
  | path (p : String) (stored : Img)
  | buffer (b : Img)
deriving DecidableEq, Repr

/-- `Buffer.isBuffer(options.image)`. -/
def ImageInput.isBuffer : ImageInput → Bool
  | .path _ _ => false
  | .buffer _ => true

/-- The image the input denotes. -/
def ImageInput.loaded : ImageInput → Img
  | .path _ stored => stored
  | .buffer b => b

/-- `ImageTransformOptions` (the fields the compositing decision reads). -/
structure TransformOptions where
  image : ImageInput
  addGrid : Bool
  regions : List Region
  gridRows : Nat
  gridCols : Nat
  annotations : List AnnotationType
deriving DecidableEq, Repr

/-- The list of layers `transformImage` composites, in order: the grid
layer only when `addGrid` is set **and** the input is not a buffer; the
highlight layer only when `regions` is non-empty
(`options.regions?.length`). -/
def transformComposites (o : TransformOptions) : List Layer :=
  (if o.addGrid ∧ o.image.isBuffer = false then
      [Layer.grid o.gridRows o.gridCols]
    else []) ++
  (if o.regions.length ≠ 0 then
      [Layer.highlight o.regions o.annotations]
    else [])

/-- `transformImage`: composite the layers over the loaded input and
re-encode (the output is a new image value even when no layer is added,
since the buffer is re-encoded to PNG). -/
def transformImage (o : TransformOptions) : Img :=
  .transformed o.image.loaded (transformComposites o)

/-! ## The LLM client and the analyzer pipeline (`src/llm/analyzer.ts`) -/

/-- Which concrete client the analyzer holds.  `createClient` constructs an
`AnthropicClient` or an `OpenAIClient` from `config.provider`; an injected
`config.client` of any other class is `custom` (it fails both `instanceof`
tests in `calculateCost` and in the `modelName` selection). -/
inductive ClientKind where
  | anthropic
  | openai
  | custom
deriving DecidableEq, Repr

/-- The prompt bias applied per pass index: index `0` appends the liberal
instruction, index `numPasses - 1` the conservative one, other passes send
the base prompt unchanged.  The literal instruction text is opaque to the
rest of the pipeline and is abstracted to this tag. -/
inductive PromptBias where
  | liberal
  | conservative
  | plain
deriving DecidableEq, Repr

/-- The argument tuple of one `client.analyzePair(imageBuffer, imageBuffer,
adjustedPrompt, temp)` call.  Field names follow the `LLMClient.analyzePair`
signature (`originalImage`, `gridImage`). -/
structure ConsensusCall where
  originalImage : Img
  gridImage : Img
  basePrompt : Option String
  bias : PromptBias
  temperature : Option ℚ
deriving DecidableEq, Repr

/-- The verification prompt built in `analyze`:
`VERIFICATION_PROMPT_TEMPLATE(contiguous).replace("\x7bprompt\x7d", prompt || "")
.replace("\x7bcells\x7d", JSON.stringify(initialCells))`.  The template text is
fixed given these three inputs, so the prompt is modelled by them. -/
structure VerificationPrompt where
  contiguous : Bool
  prompt : String
  cells : List String
deriving DecidableEq, Repr

/-- The JSON shape `performAnalysis` casts the refinement response to
(`AnalysisResponse` without the token field, which `analyze` adds). -/
structure AnalysisShape where
  regions : List Region
  summary : String
deriving DecidableEq, Repr

/-- The refinement response (`client.analyze`): either a raw string (the
`typeof response === "string"` branch, in which case no usage is recorded)
or an object with a `text` field and optional usage.  In both cases the
text is represented by its `JSON.parse` outcome; `parsed = none` covers
both unparseable text and a missing `text` field (then
`response.text || ""` is `""`, which does not parse). -/
inductive RefineResp where
  | strResp (parsed : Option AnalysisShape)
  | objResp (parsed : Option AnalysisShape) (usage : Option Usage)
deriving DecidableEq, Repr

/-- The abstract backend client: its kind, its `getModel()` value, and its
two call capabilities as response functions.  A consensus-pass response of
`none` models `!response` (a `null`/`undefined` result). -/
structure Client where
  kind : ClientKind
  modelName : String
  analyzePair : ConsensusCall → Option PassResponse
  analyze : Img → VerificationPrompt → RefineResp

/-- What one consensus pass contributes (lines 419–437): cells list plus
the token usage added to the ledger.  An invalid response (`!response` or a
non-string `text`) returns `[]` *before* the usage is read; a valid
response first adds `usage` (if present), then parses:
`JSON.parse` failure is caught to `[]`, otherwise `parsed.cells || []`. -/
def passResult (r : Option PassResponse) : List String × Nat × Nat :=
  match r with
  | none => ([], 0, 0)
  | some resp =>
    match resp.text with
    | none => ([], 0, 0)
    | some t =>
      let usage := match resp.usage with
        | some u => (u.input_tokens, u.output_tokens)
        | none => (0, 0)
      let cells := match t with
        | .unparseable => []
        | .noCells => []
        | .cellsArr cs => cs
        | .cellsStr s => [s]
      (cells, usage)

/-- The cells a pass contributes. -/
def passCells (r : Option PassResponse) : List String := (passResult r).1

/-- The list of `analyzePair` calls `performInitialAnalysis` dispatches:
one per element of `temperatures`, each passing its `imageBuffer` argument
as **both** images, with the bias chosen by index. -/
def consensusCalls (anthropic : Bool) (numPasses : Nat) (imageBuffer : Img)
    (prompt : Option String) : List ConsensusCall :=
  (List.range numPasses).map (fun i =>
    { originalImage := imageBuffer
      gridImage := imageBuffer
      basePrompt := prompt
      bias :=
        if i = 0 then .liberal
        else if i = numPasses - 1 then .conservative
        else .plain
      temperature := (temperatures anthropic numPasses).getD i none })

/-- `performInitialAnalysis`: dispatch the calls, soft-absorb per-pass
failures, sum the reported usage into the ledger, and aggregate the cells.
Returns (aggregated cells, input tokens added, output tokens added).
Hard backend failures (rejected promises) abort the whole stage and are
outside this model; only malformed content is absorbed. -/
def performInitialAnalysis (client : Client) (numPasses : Nat)
    (imageBuffer : Img) (prompt : Option String) :
    List String × Nat × Nat :=
  let calls := consensusCalls (client.kind = .anthropic) numPasses
    imageBuffer prompt
  let per := calls.map (fun c => passResult (client.analyzePair c))
  (aggregateCells (per.map (·.1)),
   (per.map (fun p => p.2.1)).sum,
   (per.map (fun p => p.2.2)).sum)

/-- `performAnalysis` (lines 457–482): on a string response, parse or
throw; on an object response, add the usage to the ledger, then parse
`response.text || ""` or throw.  The thrown message is
`Failed to parse analysis response: ...`; the error detail is dropped.
Returns the parsed shape plus the usage added before the parse attempt
(usage added on a failing parse dies with the invocation). -/
def performAnalysis (r : RefineResp) : Except String (AnalysisShape × Nat × Nat) :=
  match r with
  | .strResp (some a) => .ok (a, 0, 0)
  | .strResp none => .error "Failed to parse analysis response"
  | .objResp parsed usage =>
    let u := match usage with
      | some u => (u.input_tokens, u.output_tokens)
      | none => (0, 0)
    match parsed with
    | some a => .ok (a, u.1, u.2)
    | none => .error "Failed to parse analysis response"

/-! ## Price table and cost (`MODEL_PRICING` in `src/llm/types.ts`,
`calculateCost` in `src/llm/analyzer.ts`) -/

/-- `MODEL_PRICING`: model name ↦ (input, output) dollars per million
tokens. -/
def MODEL_PRICING : List (String × ℚ × ℚ) :=
  [("gpt-4.1", (2, 8)),
   ("gpt-4.1-mini", (2 / 5, 8 / 5)),
   ("claude-3-7-sonnet-latest", (3, 15))]

/-- `MODEL_PRICING[model]`. -/
def pricingFor (model : String) : Option (ℚ × ℚ) :=
  (MODEL_PRICING.find? (fun e => e.1 = model)).map Prod.snd

/-- `calculateCost(tokens)`: for an OpenAI or Anthropic client, look the
model up in the price table and compute
`tokens.input * pricing.input / 1_000_000 + tokens.output * pricing.output
/ 1_000_000`, or 0 when the model has no entry (for OpenAI a warning is
also logged); any other client returns 0. -/
def calculateCost (kind : ClientKind) (model : String)
    (input output : Nat) : ℚ :=
  match kind with
  | .custom => 0
  | _ =>
    match pricingFor model with
    | none => 0
    | some p => (input : ℚ) * p.1 / 1000000 + (output : ℚ) * p.2 / 1000000

/-- The `modelName` stored in the result (lines 333–338): `getModel()` for
the two known client classes, `"unknown"` otherwise. -/
def effectiveModelName (c : Client) : String :=
  match c.kind with
  | .custom => "unknown"
  | _ => c.modelName

/-! ## `ImageAnalyzer.analyze` (lines 213–350)

Stages, in source order: reset `this.totalTokens` to zero; grid-overlay
render of the raw buffer; `performInitialAnalysis` on that render;
highlight render of the raw buffer with the aggregated cells;
`performAnalysis` on the highlight render with the verification prompt;
assemble the result with summed tokens, cost and model name.  Saving the
verification image to disk and the diagnostic logging do not affect the
result and are not modelled. -/

/-- The token fields of the returned `AnalysisResponse`. -/
structure ResultTokens where
  input : Nat
  output : Nat
  total : Nat
  cost : ℚ
  modelName : String
deriving DecidableEq, Repr

/-- The `AnalysisResponse` returned by `analyze`. -/
structure AnalysisResult where
  regions : List Region
  summary : String
  tokens : ResultTokens
deriving DecidableEq, Repr

/-- Stage 1: `transformImage({ image: imageBuffer, addGrid: true,
gridConfig })` — the "grid overlay" render of the raw buffer. -/
def gridImageOf (rows cols : Nat) (imageBuffer : Img) : Img :=
  transformImage
    { image := .buffer imageBuffer
      addGrid := true
      regions := []
      gridRows := rows
      gridCols := cols
      annotations := [] }

/-- Stage 3: the highlight render fed to the refinement call
(`transformImage` with the initial cells as one untitled region and a
highlight annotation). -/
def highlightedImageOf (rows cols : Nat) (imageBuffer : Img)
    (initialCells : List String) : Img :=
  transformImage
    { image := .buffer imageBuffer
      addGrid := true
      regions := [{ title := ""
                    description := "Initial pass"
                    details := "Pending verification"
                    cells := initialCells }]
      gridRows := rows
      gridCols := cols
      annotations := [.highlight] }

/-- The `analyzePair` calls dispatched inside one `analyze` invocation:
`performInitialAnalysis` receives the grid-overlay render and passes it as
both images of every call. -/
def analyzeConsensusCalls (client : Client) (rows cols numPasses : Nat)
    (imageBuffer : Img) (prompt : Option String) : List ConsensusCall :=
  consensusCalls (client.kind = .anthropic) numPasses
    (gridImageOf rows cols imageBuffer) prompt

/-- The full outcome of the consensus stage as run inside `analyze`:
aggregated cells plus the two ledger increments. -/
def consensusStageOf (client : Client) (rows cols numPasses : Nat)
    (imageBuffer : Img) (prompt : Option String) :
    List String × Nat × Nat :=
  performInitialAnalysis client numPasses (gridImageOf rows cols imageBuffer)
    prompt

/-- The `initialCells` value inside `analyze`. -/
def initialCellsOf (client : Client) (rows cols numPasses : Nat)
    (imageBuffer : Img) (prompt : Option String) : List String :=
  (consensusStageOf client rows cols numPasses imageBuffer prompt).1

/-- The `verificationPrompt` value inside `analyze`:
`VERIFICATION_PROMPT_TEMPLATE(options.contiguousRegions ?? false)` with
`\x7bprompt\x7d` and `\x7bcells\x7d` substituted. -/
def verificationPromptOf (client : Client) (rows cols numPasses : Nat)
    (imageBuffer : Img) (prompt : Option String)
    (contiguousRegions : Option Bool) : VerificationPrompt :=
  { contiguous := contiguousRegions.getD false
    prompt := prompt.getD ""
    cells := initialCellsOf client rows cols numPasses imageBuffer prompt }

/-- The refinement response obtained inside `analyze`: `client.analyze`
applied to the highlight render and the verification prompt. -/
def refineResponseOf (client : Client) (rows cols numPasses : Nat)
    (imageBuffer : Img) (prompt : Option String)
    (contiguousRegions : Option Bool) : RefineResp :=
  client.analyze
    (highlightedImageOf rows cols imageBuffer
      (initialCellsOf client rows cols numPasses imageBuffer prompt))
    (verificationPromptOf client rows cols numPasses imageBuffer prompt
      contiguousRegions)

/-- Assembly of the returned `AnalysisResponse` (lines 340–349).  The `0 +`
is the freshly reset ledger (`this.totalTokens = { input: 0, output: 0 }`
at the top of `analyze`); `consensusTokens` are the increments added by the
N passes and `ri`/`ro` the increment added by the refinement call. -/
def mkResult (client : Client) (consensusTokens : Nat × Nat)
    (verified : AnalysisShape) (ri ro : Nat) : AnalysisResult :=
  let input := 0 + consensusTokens.1 + ri
  let output := 0 + consensusTokens.2 + ro
  { regions := verified.regions
    summary := verified.summary
    tokens :=
      { input := input
        output := output
        total := input + output
        cost := calculateCost client.kind client.modelName input output
        modelName := effectiveModelName client } }

/-- `analyze`.  `_ledger0` is the `this.totalTokens` state left behind by
any previous invocation; the first statement of `analyze`
(`this.totalTokens = { input: 0, output: 0 }`) overwrites it with zeroes,
so the result cannot depend on it — the body therefore starts from the
fresh ledger inside `mkResult`.  `rows`/`cols` are the analyzer's
`gridConfig`, `numPasses` its configured pass count
(`config.numPasses || 4`).  An unparseable refinement response propagates
as `.error`; there is no catch in `analyze`. -/
def analyze (client : Client) (rows cols numPasses : Nat)
    (imageBuffer : Img) (prompt : Option String)
    (contiguousRegions : Option Bool) (_ledger0 : Nat × Nat) :
    Except String AnalysisResult :=
  let initial := consensusStageOf client rows cols numPasses imageBuffer prompt
  match performAnalysis
      (refineResponseOf client rows cols numPasses imageBuffer prompt
        contiguousRegions) with
  | .error e => .error e
  | .ok (verified, ri, ro) => .ok (mkResult client initial.2 verified ri ro)

/-! ## Cell labels (`generateLabels` in `src/grid/generator.ts`,
`boundingBoxToGridCells` in `src/utils/gridAccuracy.ts`)

Both sites build the label as
`String.fromCharCode(65 + row) + (col + 1)` with 0-based `row` and `col`.
There is no range check and no `AddressError` anywhere in the repository:
`row = 26` yields `String.fromCharCode(91)`, the character `[`. -/

/-- `String.fromCharCode(n)`: the UTF-16 code unit `n % 2^16`.  (Values in
the surrogate range do not arise for the rows considered here.) -/
def jsCharOfCode (n : Nat) : Char := Char.ofNat (n % 65536)

/-- The label built for 0-based `row` and `col`:
`String.fromCharCode(65 + row)` followed by the decimal digits of
`col + 1`. -/
def jsLabel (row col : Nat) : String :=
  String.mk [jsCharOfCode (65 + row)] ++ Nat.repr (col + 1)

/-! ## Lemmas about the vote tally -/

/-- The keys of an association list. -/
def keysOf (m : List (String × Nat)) : List String := m.map Prod.fst

theorem keysOf_nil : keysOf [] = [] := rfl

theorem keysOf_cons (p : String × Nat) (m : List (String × Nat)) :
    keysOf (p :: m) = p.1 :: keysOf m := rfl

theorem mapCount_eq_zero_of_not_mem {m : List (String × Nat)} {c : String}
    (h : c ∉ keysOf m) : mapCount m c = 0 := by
  induction m with
  | nil => rfl
  | cons p rest ih =>
    simp only [keysOf_cons, List.mem_cons, not_or] at h
    have hne : ¬ p.1 = c := fun he => h.1 he.symm
    simp only [mapCount, if_neg hne]
    exact ih h.2

theorem any_key_eq_true {m : List (String × Nat)} {cell : String}
    (h : cell ∈ keysOf m) :
    (m.any fun p => decide (p.1 = cell)) = true := by
  simp only [List.any_eq_true, decide_eq_true_eq]
  rcases List.mem_map.mp h with ⟨p, hp, hfst⟩
  exact ⟨p, hp, hfst⟩

theorem any_key_eq_false {m : List (String × Nat)} {cell : String}
    (h : cell ∉ keysOf m) :
    ¬ (m.any fun p => decide (p.1 = cell)) = true := by
  simp only [List.any_eq_true, decide_eq_true_eq, not_exists]
  intro p hp
  exact h (List.mem_map.mpr ⟨p, hp.1, hp.2⟩)

theorem keysOf_bumpCount (m : List (String × Nat)) (cell : String) :
    keysOf (bumpCount m cell) =
      if cell ∈ keysOf m then keysOf m else keysOf m ++ [cell] := by
  unfold bumpCount
  by_cases h : cell ∈ keysOf m
  · rw [if_pos (any_key_eq_true h), if_pos h]
    unfold keysOf
    rw [List.map_map]
    apply List.map_congr_left
    intro p _
    by_cases hp : p.1 = cell <;> simp [hp]
  · rw [if_neg (any_key_eq_false h), if_neg h]
    unfold keysOf
    simp

theorem nodup_keysOf_bumpCount {m : List (String × Nat)} {cell : String}
    (h : (keysOf m).Nodup) : (keysOf (bumpCount m cell)).Nodup := by
  rw [keysOf_bumpCount]
  by_cases hmem : cell ∈ keysOf m
  · simpa [hmem] using h
  · rw [if_neg hmem, List.nodup_append]
    refine ⟨h, List.nodup_singleton cell, ?_⟩
    intro a ha hb
    rw [List.mem_singleton] at hb
    exact hmem (hb ▸ ha)

theorem mapCount_map_bump (m : List (String × Nat)) (cell c : String) :
    mapCount (m.map (fun p => if p.1 = cell then (p.1, p.2 + 1) else p)) c =
      mapCount m c + (if c = cell ∧ c ∈ keysOf m then 1 else 0) := by
  induction m with
  | nil => simp [mapCount, keysOf_nil]
  | cons p rest ih =>
    have hfst : (if p.1 = cell then (p.1, p.2 + 1) else p).1 = p.1 := by
      by_cases hp : p.1 = cell <;> simp [hp]
    by_cases hpc : p.1 = c
    · by_cases hcc : c = cell
      · subst hcc
        have hmem : c ∈ keysOf (p :: rest) := by
          rw [keysOf_cons, ← hpc]
          exact List.mem_cons_self _ _
        simp [List.map_cons, mapCount, hpc, hmem]
      · have hp : ¬ p.1 = cell := fun h => hcc (hpc.symm.trans h)
        simp [List.map_cons, mapCount, hp, hpc, hcc]
    · have hne : ¬ c = p.1 := fun h => hpc h.symm
      simp only [List.map_cons, mapCount, hfst, if_neg hpc, ih, keysOf_cons]
      congr 1
      by_cases hcc : c = cell
      · subst hcc
        by_cases hcr : c ∈ keysOf rest
        · simp [hcr, List.mem_cons]
        · simp [hcr, List.mem_cons, hne]
      · simp [hcc]

theorem mapCount_append_single (m : List (String × Nat)) (cell c : String) :
    mapCount (m ++ [(cell, 1)]) c =
      if c ∈ keysOf m then mapCount m c else if c = cell then 1 else 0 := by
  induction m with
  | nil =>
    simp only [List.nil_append, mapCount, keysOf_nil, List.not_mem_nil,
      if_false]
    by_cases h : cell = c
    · simp [h]
    · have h2 : ¬ c = cell := fun hc => h hc.symm
      simp [h, h2]
  | cons p rest ih =>
    by_cases hpc : p.1 = c
    · have hc : c ∈ keysOf (p :: rest) := by
        rw [keysOf_cons, ← hpc]
        exact List.mem_cons_self _ _
      simp [mapCount, hpc, hc]
    · have hne : ¬ c = p.1 := fun hc => hpc hc.symm
      rw [List.cons_append]
      simp only [mapCount, if_neg hpc]
      rw [ih, keysOf_cons]
      by_cases hcrest : c ∈ keysOf rest
      · simp [hcrest, List.mem_cons]
      · simp [hcrest, List.mem_cons, hne]

theorem mapCount_bumpCount (m : List (String × Nat)) (cell c : String) :
    mapCount (bumpCount m cell) c =
      mapCount m c + (if c = cell then 1 else 0) := by
  unfold bumpCount
  by_cases h : cell ∈ keysOf m
  · rw [if_pos (any_key_eq_true h), mapCount_map_bump]
    by_cases hcc : c = cell
    · subst hcc; simp [h]
    · simp [hcc]
  · rw [if_neg (any_key_eq_false h), mapCount_append_single]
    by_cases hcm : c ∈ keysOf m
    · have hne : ¬ c = cell := fun hc => h (hc ▸ hcm)
      simp [hcm, hne]
    · rw [if_neg hcm, mapCount_eq_zero_of_not_mem hcm, Nat.zero_add]

theorem mem_of_nodup_keys {m : List (String × Nat)} {p : String × Nat}
    (h : (keysOf m).Nodup) :
    p ∈ m ↔ p.1 ∈ keysOf m ∧ p.2 = mapCount m p.1 := by
  induction m with
  | nil => simp [keysOf_nil]
  | cons q rest ih =>
    rw [keysOf_cons, List.nodup_cons] at h
    constructor
    · intro hmem
      rcases List.mem_cons.mp hmem with rfl | hp
      · refine ⟨by rw [keysOf_cons]; exact List.mem_cons_self _ _, ?_⟩
        simp [mapCount]
      · have h1 := (ih h.2).mp hp
        have hne : ¬ q.1 = p.1 := by
          intro he
          exact h.1 (by rw [he]; exact h1.1)
        refine ⟨by rw [keysOf_cons]; exact List.mem_cons_of_mem _ h1.1, ?_⟩
        simp only [mapCount, if_neg hne]
        exact h1.2
    · rintro ⟨hmem, hval⟩
      rw [keysOf_cons] at hmem
      rcases List.mem_cons.mp hmem with he | hmem'
      · have hq : mapCount (q :: rest) p.1 = q.2 := by
          simp [mapCount, he.symm]
        rw [hq] at hval
        have hpq : p = q := Prod.ext_iff.mpr ⟨he, hval⟩
        rw [hpq]
        exact List.mem_cons_self _ _
      · right
        have hne : ¬ q.1 = p.1 := by
          intro he
          exact h.1 (by rw [he]; exact hmem')
        rw [mapCount, if_neg hne] at hval
        exact (ih h.2).mpr ⟨hmem', hval⟩

/-- Foldl invariant for the `forEach` vote loop. -/
theorem foldl_bumpCount_inv (xs : List String) :
    ∀ m : List (String × Nat), (keysOf m).Nodup →
      (keysOf (xs.foldl bumpCount m)).Nodup ∧
      (∀ c, mapCount (xs.foldl bumpCount m) c = mapCount m c + xs.count c) ∧
      (∀ c, c ∈ keysOf (xs.foldl bumpCount m) ↔ c ∈ keysOf m ∨ c ∈ xs) := by
  induction xs with
  | nil =>
    intro m hm
    refine ⟨hm, fun c => by simp, fun c => by simp⟩
  | cons x rest ih =>
    intro m hm
    have hm' : (keysOf (bumpCount m x)).Nodup := nodup_keysOf_bumpCount hm
    obtain ⟨h1, h2, h3⟩ := ih (bumpCount m x) hm'
    refine ⟨by simpa [List.foldl_cons] using h1, ?_, ?_⟩
    · intro c
      have h2c := h2 c
      rw [mapCount_bumpCount] at h2c
      rw [List.foldl_cons, h2c, List.count_cons]
      by_cases hc : c = x
      · subst hc
        simp
        try omega
      · have hbeq : (x == c) = false :=
          beq_eq_false_iff_ne.mpr (fun he => hc he.symm)
        simp [hc, hbeq]
    · intro c
      have h3c := h3 c
      rw [keysOf_bumpCount] at h3c
      rw [List.foldl_cons, h3c]
      by_cases hmem : x ∈ keysOf m
      · rw [if_pos hmem]
        constructor
        · rintro (h | h)
          · exact Or.inl h
          · exact Or.inr (List.mem_cons_of_mem _ h)
        · rintro (h | h)
          · exact Or.inl h
          · rcases List.mem_cons.mp h with rfl | h'
            · exact Or.inl hmem
            · exact Or.inr h'
      · rw [if_neg hmem]
        simp only [List.mem_append, List.mem_singleton, List.mem_cons]
        tauto

theorem nodup_keysOf_cellCounts (xs : List String) :
    (keysOf (cellCounts xs)).Nodup :=
  (foldl_bumpCount_inv xs [] (by simp [keysOf_nil])).1

theorem mapCount_cellCounts (xs : List String) (c : String) :
    mapCount (cellCounts xs) c = xs.count c := by
  have h := (foldl_bumpCount_inv xs [] (by simp [keysOf_nil])).2.1 c
  simpa [cellCounts, mapCount] using h

theorem mem_keysOf_cellCounts (xs : List String) (c : String) :
    c ∈ keysOf (cellCounts xs) ↔ c ∈ xs := by
  have h := (foldl_bumpCount_inv xs [] (by simp [keysOf_nil])).2.2 c
  simpa [cellCounts, keysOf_nil] using h

theorem count_flatMap_replicate (c : String) :
    ∀ L : List (String × Nat), (keysOf L).Nodup →
      (L.flatMap (fun p => List.replicate p.2 p.1)).count c = mapCount L c := by
  intro L
  induction L with
  | nil => intro _; rfl
  | cons p rest ih =>
    intro h
    rw [keysOf_cons, List.nodup_cons] at h
    rw [List.flatMap_cons, List.count_append, List.count_replicate]
    by_cases hpc : p.1 = c
    · have hnotin : c ∉ keysOf rest := by
        intro hc
        exact h.1 (hpc ▸ hc)
      have hzero : mapCount rest c = 0 := mapCount_eq_zero_of_not_mem hnotin
      rw [ih h.2, hzero, if_pos (beq_iff_eq.mpr hpc)]
      simp [mapCount, hpc]
    · have hbeq : ¬ (p.1 == c) = true := by
        simp only [beq_iff_eq]
        exact hpc
      rw [if_neg hbeq, ih h.2]
      simp [mapCount, hpc]

theorem keysOf_filter_sublist (φ : String × Nat → Bool)
    (L : List (String × Nat)) :
    (keysOf (L.filter φ)).Sublist (keysOf L) :=
  (List.filter_sublist L).map Prod.fst

theorem mapCount_filter_ge2 (c : String) :
    ∀ L : List (String × Nat), (keysOf L).Nodup →
      mapCount (L.filter (fun p => 2 ≤ p.2)) c =
        if 2 ≤ mapCount L c then mapCount L c else 0 := by
  intro L
  induction L with
  | nil => intro _; rfl
  | cons p rest ih =>
    intro h
    rw [keysOf_cons, List.nodup_cons] at h
    by_cases hkeep : 2 ≤ p.2
    · rw [List.filter_cons_of_pos (by simpa using hkeep)]
      by_cases hpc : p.1 = c
      · simp [mapCount, hpc, hkeep]
      · simp only [mapCount, if_neg hpc]
        exact ih h.2
    · rw [List.filter_cons_of_neg (by simpa using hkeep)]
      by_cases hpc : p.1 = c
      · have hnotin : c ∉ keysOf rest := by
          intro hc
          exact h.1 (hpc ▸ hc)
        have hnotin' : c ∉ keysOf (rest.filter (fun p => 2 ≤ p.2)) :=
          fun hc => hnotin ((keysOf_filter_sublist _ rest).subset hc)
        rw [mapCount_eq_zero_of_not_mem hnotin']
        simp [mapCount, hpc, hkeep]
      · rw [ih h.2]
        simp [mapCount, hpc]

/-- **Vote-count characterization of the aggregated output.**  A cell
occurs in `aggregateCells results` exactly `k` times when it occurs `k ≥ 2`
times in the concatenation of all pass results, and does not occur at all
otherwise.  Counting is by *occurrence* in `results.flat()`: repeats of a
cell inside a single pass each count. -/
theorem count_aggregateCells (results : List (List String)) (c : String) :
    (aggregateCells results).count c =
      if 2 ≤ (results.flatten).count c then (results.flatten).count c
      else 0 := by
  unfold aggregateCells
  set xs := results.flatten with hxs
  have hnodup : (keysOf (cellCounts xs)).Nodup := nodup_keysOf_cellCounts xs
  have hnodupf : (keysOf ((cellCounts xs).filter (fun p => 2 ≤ p.2))).Nodup :=
    (keysOf_filter_sublist _ (cellCounts xs)).nodup hnodup
  rw [(List.perm_insertionSort numericLe _).count_eq]
  rw [count_flatMap_replicate c _ hnodupf]
  rw [mapCount_filter_ge2 c _ hnodup]
  rw [mapCount_cellCounts]

/-! ## Lemmas about the numeric-aware comparator -/

theorem pairCompare_eq_iff {a b : Nat × Nat} :
    pairCompare a b = .eq ↔ a = b := by
  rcases a with ⟨a1, a2⟩
  rcases b with ⟨b1, b2⟩
  unfold pairCompare
  dsimp only
  split_ifs <;> simp_all [Prod.ext_iff] <;> omega

theorem pairCompare_swap (a b : Nat × Nat) :
    pairCompare b a = (pairCompare a b).swap := by
  rcases a with ⟨a1, a2⟩
  rcases b with ⟨b1, b2⟩
  unfold pairCompare
  dsimp only
  split_ifs <;> first | rfl | omega

theorem pairCompare_lt_trans {a b c : Nat × Nat}
    (hab : pairCompare a b = .lt) (hbc : pairCompare b c = .lt) :
    pairCompare a c = .lt := by
  rcases a with ⟨a1, a2⟩
  rcases b with ⟨b1, b2⟩
  rcases c with ⟨c1, c2⟩
  unfold pairCompare at *
  dsimp only at *
  split_ifs at * <;> first | rfl | omega

theorem keysCompare_eq_iff :
    ∀ {as bs : List (Nat × Nat)}, keysCompare as bs = .eq ↔ as = bs := by
  intro as
  induction as with
  | nil =>
    intro bs
    cases bs <;> simp [keysCompare]
  | cons a as ih =>
    intro bs
    cases bs with
    | nil => simp [keysCompare]
    | cons b bs =>
      simp only [keysCompare]
      cases hab : pairCompare a b with
      | eq =>
        have hentry := pairCompare_eq_iff.mp hab
        simp [hentry, ih]
      | lt =>
        have : ¬ a = b := fun he => by
          rw [he] at hab
          rw [pairCompare_eq_iff.mpr rfl] at hab
          exact Ordering.noConfusion hab
        simp [this]
      | gt =>
        have : ¬ a = b := fun he => by
          rw [he] at hab
          rw [pairCompare_eq_iff.mpr rfl] at hab
          exact Ordering.noConfusion hab
        simp [this]

theorem keysCompare_swap :
    ∀ as bs : List (Nat × Nat), keysCompare bs as = (keysCompare as bs).swap
  | [], [] => rfl
  | [], _ :: _ => rfl
  | _ :: _, [] => rfl
  | a :: as, b :: bs => by
    simp only [keysCompare]
    rw [pairCompare_swap]
    cases hab : pairCompare a b <;>
      simp [Ordering.swap, keysCompare_swap as bs]

theorem keysCompare_lt_trans :
    ∀ {as bs cs : List (Nat × Nat)}, keysCompare as bs = .lt →
      keysCompare bs cs = .lt → keysCompare as cs = .lt := by
  intro as
  induction as with
  | nil =>
    intro bs cs hab hbc
    cases bs with
    | nil => exact hbc
    | cons b bs =>
      cases cs with
      | nil => simp [keysCompare] at hbc
      | cons c cs => rfl
  | cons a as ih =>
    intro bs cs hab hbc
    cases bs with
    | nil => simp [keysCompare] at hab
    | cons b bs =>
      cases cs with
      | nil => simp [keysCompare] at hbc
      | cons c cs =>
        simp only [keysCompare] at hab hbc ⊢
        cases h1 : pairCompare a b with
        | gt => rw [h1] at hab; exact Ordering.noConfusion hab
        | eq =>
          have he := pairCompare_eq_iff.mp h1
          subst he
          rw [h1] at hab
          cases h2 : pairCompare a c with
          | lt => rfl
          | eq =>
            have he2 := pairCompare_eq_iff.mp h2
            subst he2
            rw [h2] at hbc
            exact ih hab hbc
          | gt =>
            rw [h2] at hbc
            exact Ordering.noConfusion hbc
        | lt =>
          cases h2 : pairCompare b c with
          | gt => rw [h2] at hbc; exact Ordering.noConfusion hbc
          | eq =>
            have he2 := pairCompare_eq_iff.mp h2
            subst he2
            rw [h1]
          | lt =>
            rw [pairCompare_lt_trans h1 h2]

instance : IsTotal String numericLe where
  total a b := by
    unfold numericLe numericCompare
    by_cases h : keysCompare (numericKey a) (numericKey b) = .gt
    · right
      rw [keysCompare_swap, h]
      simp [Ordering.swap]
    · left
      exact h

instance : IsTrans String numericLe where
  trans a b c hab hbc := by
    unfold numericLe numericCompare at *
    cases h1 : keysCompare (numericKey a) (numericKey b) with
    | gt => exact absurd h1 hab
    | eq =>
      rw [keysCompare_eq_iff.mp h1]
      exact hbc
    | lt =>
      cases h2 : keysCompare (numericKey b) (numericKey c) with
      | gt => exact absurd h2 hbc
      | eq =>
        rw [← keysCompare_eq_iff.mp h2, h1]
        simp
      | lt =>
        rw [keysCompare_lt_trans h1 h2]
        simp

/-- The aggregated cell list is sorted with respect to the numeric-aware
comparator order. -/
theorem aggregateCells_sorted (results : List (List String)) :
    (aggregateCells results).Sorted numericLe :=
  List.sorted_insertionSort numericLe _

/-! ## Auxiliary facts and concrete clients used by claim theorems -/

/-- If every pass contributes no cells, the aggregate is empty. -/
theorem aggregateCells_of_all_nil {L : List (List String)}
    (h : ∀ l ∈ L, l = []) : aggregateCells L = [] := by
  have hf : L.flatten = [] := List.flatten_eq_nil_iff.mpr h
  unfold aggregateCells
  rw [hf]
  rfl

/-- A minimal concrete client (Anthropic kind, inert responses). -/
def stubClient : Client where
  kind := .anthropic
  modelName := "claude-3-7-sonnet-latest"
  analyzePair := fun _ => none
  analyze := fun _ _ => .objResp none none

/-- The number of distinct passes whose result mentions a cell. -/
def passesNaming (results : List (List String)) (c : String) : Nat :=
  results.countP (fun pass => decide (c ∈ pass))

/-! ## Claim C1 -/

/-- **C1, counterexample.**  The claim says repeats of a cell within a
single pass are collapsed to one vote before counting, so a cell named by
only one pass is absent from the output.  The code counts occurrences of
`results.flat()` without any per-pass deduplication: with a single pass
returning `["B2", "B2"]`, the cell `B2` is named by exactly one distinct
pass, yet the aggregated output is `["B2", "B2"]`. -/
theorem C1_single_pass_repeat_counterexample :
    aggregateCells [["B2", "B2"]] = ["B2", "B2"] ∧
    passesNaming [["B2", "B2"]] "B2" = 1 ∧
    "B2" ∈ aggregateCells [["B2", "B2"]] := by
  refine ⟨by decide, by decide, by decide⟩

/-- **C1, amended.**  The aggregation counts *occurrences* across the
concatenation of all pass results (repeats within one pass each count as a
vote): a cell occurring `k ≥ 2` times in `results.flat()` appears exactly
`k` times in the aggregated output, and a cell occurring fewer than 2
times is absent. -/
theorem C1_vote_count_characterization (results : List (List String))
    (c : String) :
    ((aggregateCells results).count c =
      if 2 ≤ (results.flatten).count c then (results.flatten).count c
      else 0) ∧
    ((results.flatten).count c < 2 → c ∉ aggregateCells results) := by
  refine ⟨count_aggregateCells results c, fun h hc => ?_⟩
  have hpos : 0 < (aggregateCells results).count c :=
    List.count_pos_iff.mpr hc
  rw [count_aggregateCells results c, if_neg (by omega)] at hpos
  omega

/-- **C1, witness.**  Concrete instance of the amended characterization:
a cell named once across two passes is dropped. -/
theorem C1_vote_count_characterization_witness :
    "A9" ∉ aggregateCells [["A9"], ["B1"]] :=
  (C1_vote_count_characterization [["A9"], ["B1"]] "A9").2 (by decide)

/-! ## Claim C6 -/

/-- **C6.**  The aggregated output is sorted by the numeric-aware
comparator (row letter first, then the column compared as a number), and on
the claim's example — cells `A10`, `A2`, `A1` each named by two passes —
the output is `A1, A1, A2, A2, A10, A10`; in particular `A2` and `A9` sort
before `A10`, unlike a plain string sort. -/
theorem C6_numeric_aware_sorted :
    (∀ results, (aggregateCells results).Sorted numericLe) ∧
    aggregateCells [["A10", "A2", "A1"], ["A10", "A2", "A1"]] =
      ["A1", "A1", "A2", "A2", "A10", "A10"] ∧
    numericCompare "A2" "A10" = .lt ∧
    numericCompare "A9" "A10" = .lt ∧
    numericCompare "A1" "A2" = .lt := by
  exact ⟨aggregateCells_sorted, by decide, by decide, by decide, by decide⟩

/-! ## Claim C9 -/

/-- **C9, counterexample.**  The claim says the label construction fails
with `AddressError` for `row > 25`.  Neither `generateLabels` nor
`boundingBoxToGridCells` performs any range check, and no `AddressError`
exists in the repository: at `row = 26` the construction succeeds and
silently produces `"[1"` (`String.fromCharCode(91)` is `[`). -/
theorem C9_row26_counterexample : jsLabel 26 0 = "[1" := by decide

/-- **C9, amended.**  The label for 0-based `(row, col)` is
`chr(65 + row)` followed by the 1-based column number — `"A1"` for the
first cell, `"Z26"` for row 25 / column 25 — and for `row = 26` the
construction does not fail but silently yields the out-of-alphabet label
`"[1"`. -/
theorem C9_cell_label_construction :
    jsLabel 0 0 = "A1" ∧ jsLabel 25 25 = "Z26" ∧ jsLabel 25 0 = "Z1" ∧
    jsLabel 26 0 = "[1" := by
  refine ⟨by decide, by decide, by decide, by decide⟩

/-! ## Claim C10 -/

/-- **C10.**  `transformImage` composites a grid layer only when the input
is a file path: for every options record whose `image` is a `Buffer`, no
grid layer is in the composite list even when `addGrid` is true; and the
grid-overlay step at the start of `analyze`, which always passes a
`Buffer`, produces an image with *no* composited layers at all. -/
theorem C10_buffer_input_never_gridded :
    (∀ o : TransformOptions, o.image.isBuffer = true →
      ∀ r c, Layer.grid r c ∉ transformComposites o) ∧
    (∀ rows cols img, gridImageOf rows cols img = Img.transformed img []) := by
  constructor
  · intro o hb r c hmem
    simp only [transformComposites, hb] at hmem
    rcases List.mem_append.mp hmem with h1 | h2
    · simp at h1
    · by_cases hre : o.regions.length ≠ 0
      · rw [if_pos hre] at h2
        simp at h2
      · rw [if_neg hre] at h2
        simp at h2
  · intro rows cols img
    rfl

/-- **C10, witness.**  The concrete options the analyzer's grid step
builds contain no grid layer. -/
theorem C10_buffer_input_never_gridded_witness :
    Layer.grid 8 8 ∉ transformComposites
      { image := .buffer (Img.source 0)
        addGrid := true
        regions := []
        gridRows := 8
        gridCols := 8
        annotations := [] } :=
  C10_buffer_input_never_gridded.1
    { image := .buffer (Img.source 0)
      addGrid := true
      regions := []
      gridRows := 8
      gridCols := 8
      annotations := [] } rfl 8 8

/-! ## Claim C5 -/

/-- **C5, counterexample.**  The claim says each pass submits the pair
(original un-gridded image, grid-overlaid image).  `analyze` hands
`performInitialAnalysis` only the grid-step output and the call site
`this.client.analyzePair(imageBuffer, imageBuffer, ...)` passes that single
image as **both** arguments: for a concrete invocation every dispatched
call carries the transform output (not the original `Img.source 0`) in the
`originalImage` slot. -/
theorem C5_pair_counterexample :
    ((analyzeConsensusCalls stubClient 8 8 4 (Img.source 0) none).map
        (fun c => c.originalImage)) =
      List.replicate 4 (Img.transformed (Img.source 0) []) ∧
    ((analyzeConsensusCalls stubClient 8 8 4 (Img.source 0) none).map
        (fun c => c.gridImage)) =
      List.replicate 4 (Img.transformed (Img.source 0) []) ∧
    Img.transformed (Img.source 0) [] ≠ Img.source 0 := by
  refine ⟨by decide, by decide, by decide⟩

/-- **C5, amended.**  Every pass of one invocation submits the same image
pair, but both components are the grid-overlay-step output (which, the
input being a `Buffer`, carries no grid); the un-processed original image
is never submitted. -/
theorem C5_same_pair_both_grid_output (client : Client)
    (rows cols numPasses : Nat) (img : Img) (prompt : Option String) :
    ∀ c ∈ analyzeConsensusCalls client rows cols numPasses img prompt,
      c.originalImage = gridImageOf rows cols img ∧
      c.gridImage = gridImageOf rows cols img := by
  intro c hc
  unfold analyzeConsensusCalls consensusCalls at hc
  rcases List.mem_map.mp hc with ⟨i, _, rfl⟩
  exact ⟨rfl, rfl⟩

/-- **C5, witness.**  A concrete call list on which the membership
hypothesis is discharged. -/
theorem C5_same_pair_both_grid_output_witness :
    ∃ c ∈ analyzeConsensusCalls stubClient 2 2 3 (Img.source 7) none,
      c.originalImage = gridImageOf 2 2 (Img.source 7) ∧
      c.gridImage = gridImageOf 2 2 (Img.source 7) := by
  have hlen : 0 < (analyzeConsensusCalls stubClient 2 2 3 (Img.source 7)
      none).length := by
    unfold analyzeConsensusCalls consensusCalls
    simp
  have hmem := List.get_mem
    (analyzeConsensusCalls stubClient 2 2 3 (Img.source 7) none) 0 hlen
  exact ⟨_, hmem, C5_same_pair_both_grid_output stubClient 2 2 3 (Img.source 7)
    none _ hmem⟩

/-! ## Claim C2 -/

/-- **C2, counterexample.**  The claim says `N = 1` is special-cased to a
single mid-range temperature.  There is no special case in the code: for
`numPasses = 1` both branches compute `low + (0 * 0.6) / 0`, i.e.
`0/0 = NaN` (modelled `none`), so the single pass is scheduled with `NaN`
rather than any mid-range value. -/
theorem C2_numPasses_one_counterexample :
    temperatures true 1 = [none] ∧ temperatures false 1 = [none] := by
  constructor <;> norm_num [temperatures, jsDiv, List.range_succ]

/-- **C2, amended.**  For every `N ≥ 2` the temperature of pass `i` is
`low + i * 0.6 / (N - 1)` with `low = 0.2` for the Anthropic client and
`low = 0.4` for every other client (so the ranges are `[0.2, 0.8]` and
`[0.4, 1.0]`: pass `0` gets `low`, pass `N-1` gets `low + 0.6`); for `N = 4`
the schedules are exactly `[0.2, 0.4, 0.6, 0.8]` and `[0.4, 0.6, 0.8, 1.0]`.
For `N = 1` there is no special case: the computed value is `0/0` (`NaN`,
modelled `none`). -/
theorem C2_temperature_schedule :
    (∀ (b : Bool) (n : Nat), 2 ≤ n → ∀ i, i < n →
      (temperatures b n).getD i none =
        some ((if b then (2 : ℚ) / 10 else 4 / 10) +
          ((i : ℚ) * (6 / 10)) / ((n : ℚ) - 1))) ∧
    (∀ (b : Bool) (n : Nat), 2 ≤ n →
      (temperatures b n).getD 0 none =
        some (if b then (2 : ℚ) / 10 else 4 / 10) ∧
      (temperatures b n).getD (n - 1) none =
        some ((if b then (2 : ℚ) / 10 else 4 / 10) + 6 / 10)) ∧
    temperatures true 4 =
      [some (2 / 10), some (4 / 10), some (6 / 10), some (8 / 10)] ∧
    temperatures false 4 =
      [some (4 / 10), some (6 / 10), some (8 / 10), some 1] ∧
    (∀ b, temperatures b 1 = [none]) := by
  have hgen : ∀ (b : Bool) (n : Nat), 2 ≤ n → ∀ i, i < n →
      (temperatures b n).getD i none =
        some ((if b then (2 : ℚ) / 10 else 4 / 10) +
          ((i : ℚ) * (6 / 10)) / ((n : ℚ) - 1)) := by
    intro b n hn i hi
    have hden : ((n : ℚ) - 1) ≠ 0 := by
      have h2 : (2 : ℚ) ≤ (n : ℚ) := by exact_mod_cast hn
      intro h0
      linarith
    unfold temperatures
    rw [List.getD_eq_getElem?_getD, List.getElem?_map,
      List.getElem?_range hi]
    simp [jsDiv, hden]
  refine ⟨hgen, ?_, ?_, ?_, ?_⟩
  · intro b n hn
    have h1 : 1 ≤ n := le_trans (by norm_num) hn
    constructor
    · rw [hgen b n hn 0 (by omega)]
      norm_num
    · have hden : ((n : ℚ) - 1) ≠ 0 := by
        have h2 : (2 : ℚ) ≤ (n : ℚ) := by exact_mod_cast hn
        intro h0
        linarith
      have hcast : (((n - 1 : Nat)) : ℚ) = (n : ℚ) - 1 := by
        push_cast [Nat.cast_sub h1]
        ring
      rw [hgen b n hn (n - 1) (by omega), hcast, mul_comm, mul_div_assoc,
        div_self hden, mul_one]
  · norm_num [temperatures, jsDiv, List.range_succ]
  · norm_num [temperatures, jsDiv, List.range_succ]
  · intro b
    norm_num [temperatures, jsDiv, List.range_succ]

/-- **C2, witness.**  The general formula instantiated at the Anthropic
backend, `N = 4`, pass `1`. -/
theorem C2_temperature_schedule_witness :
    (temperatures true 4).getD 1 none = some ((2 : ℚ) / 5) := by
  have h := C2_temperature_schedule.1 true 4 (by norm_num) 1 (by norm_num)
  rw [h]
  norm_num

/-! ## Claim C3 -/

/-- A client whose every consensus response parses to a truthy non-array
`cells` value (`\x7b"cells": "B2"\x7d`-like). -/
def wrongShapeClient : Client where
  kind := .anthropic
  modelName := "claude-3-7-sonnet-latest"
  analyzePair := fun _ => some { text := some (.cellsStr "B2"), usage := none }
  analyze := fun _ _ => .objResp (some { regions := [], summary := "" }) none

/-- A sample region used by concrete refinement responses. -/
def sampleRegion : Region :=
  { title := "R", description := "d", cells := ["B2"], details := "det" }

/-- A client whose every consensus response text is unparseable and whose
refinement response parses. -/
def unparseableClient : Client where
  kind := .openai
  modelName := "gpt-4.1"
  analyzePair := fun _ => some { text := some .unparseable, usage := some ⟨3, 4⟩ }
  analyze := fun _ _ =>
    .objResp (some { regions := [sampleRegion], summary := "sum" })
      (some ⟨10, 2⟩)

/-- **C3, counterexample.**  The claim says a pass whose response is of the
wrong shape contributes zero cells.  `parsed.cells || []` only guards
*falsy* values: a truthy non-array `cells` value is returned as-is, so a
pass answering the wrong-shaped `\x7b"cells": "B2"\x7d` contributes `"B2"` as one
vote, and two such passes put `B2` into the aggregated output. -/
theorem C3_wrong_shape_counterexample :
    passCells (some { text := some (PassText.cellsStr "B2"), usage := none })
      = ["B2"] ∧
    initialCellsOf wrongShapeClient 8 8 2 (Img.source 0) none
      = ["B2", "B2"] := by
  exact ⟨rfl, by decide⟩

/-- **C3, amended.**  A pass whose response text is *unparseable*, or
parses without a truthy `cells` property, contributes zero cells (a truthy
non-array `cells` value is instead passed through as-is); if all `N` passes
are unparseable the aggregated cell list is empty and the invocation still
proceeds through the refinement stage and returns a result rather than
throwing. -/
theorem C3_unparseable_soft_failure (client : Client)
    (rows cols numPasses : Nat) (img : Img) (prompt : Option String)
    (contig : Option Bool) (l0 : Nat × Nat) (shape : AnalysisShape)
    (ru : Option Usage)
    (hcons : ∀ call, ∃ u, client.analyzePair call =
      some { text := some .unparseable, usage := u })
    (href : ∀ i p, client.analyze i p = .objResp (some shape) ru) :
    (∀ u, passCells (some { text := some PassText.unparseable, usage := u })
        = [] ∧
      passCells (some { text := some PassText.noCells, usage := u }) = []) ∧
    initialCellsOf client rows cols numPasses img prompt = [] ∧
    ∃ res, analyze client rows cols numPasses img prompt contig l0 =
        .ok res ∧
      res.regions = shape.regions ∧ res.summary = shape.summary := by
  have hempty : initialCellsOf client rows cols numPasses img prompt = [] := by
    unfold initialCellsOf consensusStageOf performInitialAnalysis
    show aggregateCells
      (((consensusCalls (client.kind = .anthropic) numPasses
          (gridImageOf rows cols img) prompt).map
        (fun c => passResult (client.analyzePair c))).map (fun p => p.1)) = []
    apply aggregateCells_of_all_nil
    intro l hl
    rcases List.mem_map.mp hl with ⟨p, hp, rfl⟩
    rcases List.mem_map.mp hp with ⟨call, _, rfl⟩
    rcases hcons call with ⟨u, hu⟩
    rw [hu]
    rfl
  have hrr : refineResponseOf client rows cols numPasses img prompt contig =
      .objResp (some shape) ru := href _ _
  have hperf : performAnalysis (RefineResp.objResp (some shape) ru) =
      .ok (shape,
        (match ru with | some u => u.input_tokens | none => 0),
        (match ru with | some u => u.output_tokens | none => 0)) := by
    cases ru <;> rfl
  refine ⟨fun u => ⟨rfl, rfl⟩, hempty, ?_⟩
  unfold analyze
  rw [hrr, hperf]
  exact ⟨_, rfl, rfl, rfl⟩

/-- **C3, witness.**  A concrete all-passes-unparseable run: empty
aggregate, successful invocation carrying the refinement's regions. -/
theorem C3_unparseable_soft_failure_witness :
    initialCellsOf unparseableClient 8 8 4 (Img.source 0) none = [] ∧
    ∃ res, analyze unparseableClient 8 8 4 (Img.source 0) none none (0, 0) =
        .ok res ∧ res.regions = [sampleRegion] := by
  have h := C3_unparseable_soft_failure unparseableClient 8 8 4 (Img.source 0)
    none none (0, 0) { regions := [sampleRegion], summary := "sum" }
    (some ⟨10, 2⟩) (fun call => ⟨some ⟨3, 4⟩, rfl⟩) (fun i p => rfl)
  rcases h with ⟨_, hempty, res, hok, hreg, _⟩
  exact ⟨hempty, res, hok, hreg⟩

/-! ## Claim C4 -/

/-- A refinement response whose text cannot be decoded as JSON: the string
branch with a failing parse, or the object branch with a missing or
unparseable `text`. -/
def RefineResp.parseFailed : RefineResp → Prop := fun r =>
  r = .strResp none ∨ ∃ u, r = .objResp none u

/-- **C4.**  If the refinement response text cannot be decoded as JSON,
`performAnalysis` throws and `analyze` — which has no catch around it —
propagates the parse error: the invocation returns `.error` and no
`AnalysisResult` is produced (no fallback region set is fabricated). -/
theorem C4_refinement_parse_error_fatal (client : Client)
    (rows cols numPasses : Nat) (img : Img) (prompt : Option String)
    (contig : Option Bool) (l0 : Nat × Nat)
    (h : (refineResponseOf client rows cols numPasses img prompt
      contig).parseFailed) :
    analyze client rows cols numPasses img prompt contig l0 =
      .error "Failed to parse analysis response" ∧
    ∀ res, analyze client rows cols numPasses img prompt contig l0 ≠
      .ok res := by
  have herr : performAnalysis
      (refineResponseOf client rows cols numPasses img prompt contig) =
      .error "Failed to parse analysis response" := by
    rcases h with h1 | ⟨u, h2⟩
    · rw [h1]
      rfl
    · rw [h2]
      cases u <;> rfl
  have hmain : analyze client rows cols numPasses img prompt contig l0 =
      .error "Failed to parse analysis response" := by
    unfold analyze
    rw [herr]
  refine ⟨hmain, fun res hok => ?_⟩
  rw [hmain] at hok
  exact Except.noConfusion hok

/-- A client whose refinement response has no decodable text. -/
def failRefineClient : Client where
  kind := .openai
  modelName := "gpt-4.1"
  analyzePair := fun _ => none
  analyze := fun _ _ => .objResp none none

/-- **C4, witness.**  A concrete invocation whose refinement text is
undecodable fails with the parse error. -/
theorem C4_refinement_parse_error_fatal_witness :
    analyze failRefineClient 4 4 2 (Img.source 1) none none (3, 5) =
      .error "Failed to parse analysis response" :=
  (C4_refinement_parse_error_fatal failRefineClient 4 4 2 (Img.source 1)
    none none (3, 5) (Or.inr ⟨none, rfl⟩)).1

/-! ## Claim C7 -/

/-- **C7.**  The token ledger is reset at the start of every invocation (the
result is independent of whatever ledger state `l0` a previous invocation
left behind), and when every call reports usage, the returned `input` and
`output` are the sums of the reported usage over the `N` consensus calls
plus the single refinement call, with `total = input + output`. -/
theorem C7_token_ledger_accounting (client : Client)
    (t : ConsensusCall → PassText) (u : ConsensusCall → Usage)
    (shape : AnalysisShape) (ru : Usage) (rows cols numPasses : Nat)
    (img : Img) (prompt : Option String) (contig : Option Bool)
    (l0 l0' : Nat × Nat)
    (hc : ∀ call, client.analyzePair call =
      some { text := some (t call), usage := some (u call) })
    (hr : ∀ i p, client.analyze i p = .objResp (some shape) (some ru)) :
    analyze client rows cols numPasses img prompt contig l0 =
      analyze client rows cols numPasses img prompt contig l0' ∧
    (analyzeConsensusCalls client rows cols numPasses img prompt).length =
      numPasses ∧
    ∃ res, analyze client rows cols numPasses img prompt contig l0 =
        .ok res ∧
      res.tokens.input =
        ((analyzeConsensusCalls client rows cols numPasses img prompt).map
          (fun c => (u c).input_tokens)).sum + ru.input_tokens ∧
      res.tokens.output =
        ((analyzeConsensusCalls client rows cols numPasses img prompt).map
          (fun c => (u c).output_tokens)).sum + ru.output_tokens ∧
      res.tokens.total = res.tokens.input + res.tokens.output := by
  refine ⟨rfl, ?_, ?_⟩
  · unfold analyzeConsensusCalls consensusCalls
    simp
  · have hin : ∀ call, (passResult (client.analyzePair call)).2.1 =
        (u call).input_tokens := by
      intro call
      rw [hc call]
      rfl
    have hout : ∀ call, (passResult (client.analyzePair call)).2.2 =
        (u call).output_tokens := by
      intro call
      rw [hc call]
      rfl
    have hsum_in :
        (consensusStageOf client rows cols numPasses img prompt).2.1 =
        ((analyzeConsensusCalls client rows cols numPasses img prompt).map
          (fun c => (u c).input_tokens)).sum := by
      show (((analyzeConsensusCalls client rows cols numPasses img
          prompt).map (fun c => passResult (client.analyzePair c))).map
          (fun p => p.2.1)).sum = _
      rw [List.map_map]
      apply congrArg List.sum
      apply List.map_congr_left
      intro c _
      exact hin c
    have hsum_out :
        (consensusStageOf client rows cols numPasses img prompt).2.2 =
        ((analyzeConsensusCalls client rows cols numPasses img prompt).map
          (fun c => (u c).output_tokens)).sum := by
      show (((analyzeConsensusCalls client rows cols numPasses img
          prompt).map (fun c => passResult (client.analyzePair c))).map
          (fun p => p.2.2)).sum = _
      rw [List.map_map]
      apply congrArg List.sum
      apply List.map_congr_left
      intro c _
      exact hout c
    have hrr : refineResponseOf client rows cols numPasses img prompt
        contig = .objResp (some shape) (some ru) := hr _ _
    have hperf : performAnalysis (RefineResp.objResp (some shape)
        (some ru)) = .ok (shape, ru.input_tokens, ru.output_tokens) := rfl
    unfold analyze
    rw [hrr, hperf]
    refine ⟨_, rfl, ?_, ?_, rfl⟩
    · show 0 + (consensusStageOf client rows cols numPasses img prompt).2.1 +
        ru.input_tokens = _
      rw [hsum_in]
      omega
    · show 0 + (consensusStageOf client rows cols numPasses img prompt).2.2 +
        ru.output_tokens = _
      rw [hsum_out]
      omega

/-- A concrete client that always reports usage (7, 3) per consensus pass
and (11, 5) for the refinement call. -/
def usageClient : Client where
  kind := .anthropic
  modelName := "claude-3-7-sonnet-latest"
  analyzePair := fun _ =>
    some { text := some (.cellsArr ["B2"]), usage := some ⟨7, 3⟩ }
  analyze := fun _ _ =>
    .objResp (some { regions := [sampleRegion], summary := "found rust" })
      (some ⟨11, 5⟩)

/-- **C7, witness.**  The end-to-end scenario: 4 passes at (7, 3) each plus
a refinement call at (11, 5) gives `input = 39`, `output = 17`,
`total = 56`, independent of the stale ledger `(9, 9)`. -/
theorem C7_token_ledger_accounting_witness :
    ∃ res, analyze usageClient 8 8 4 (Img.source 0) (some "Find rust spots")
        none (9, 9) = .ok res ∧
      res.tokens.input = 39 ∧ res.tokens.output = 17 ∧
      res.tokens.total = 56 := by
  have h := C7_token_ledger_accounting usageClient
    (fun _ => .cellsArr ["B2"]) (fun _ => ⟨7, 3⟩)
    { regions := [sampleRegion], summary := "found rust" } ⟨11, 5⟩
    8 8 4 (Img.source 0) (some "Find rust spots") none (9, 9) (0, 0)
    (fun call => rfl) (fun i p => rfl)
  rcases h with ⟨_, hlen, res, hok, hi, ho, ht⟩
  refine ⟨res, hok, ?_, ?_, ?_⟩
  · rw [hi]
    simp [List.map_const', hlen, List.sum_replicate]
  · rw [ho]
    simp [List.map_const', hlen, List.sum_replicate]
  · rw [ht, hi, ho]
    simp [List.map_const', hlen, List.sum_replicate]

/-! ## Claim C8 -/

theorem mkResult_cost (client : Client) (ct : Nat × Nat)
    (v : AnalysisShape) (ri ro : Nat) :
    (mkResult client ct v ri ro).tokens.cost =
      calculateCost client.kind client.modelName (0 + ct.1 + ri)
        (0 + ct.2 + ro) := rfl

theorem mkResult_modelName (client : Client) (ct : Nat × Nat)
    (v : AnalysisShape) (ri ro : Nat) :
    (mkResult client ct v ri ro).tokens.modelName =
      effectiveModelName client := rfl

theorem mkResult_input (client : Client) (ct : Nat × Nat)
    (v : AnalysisShape) (ri ro : Nat) :
    (mkResult client ct v ri ro).tokens.input = 0 + ct.1 + ri := rfl

theorem mkResult_output (client : Client) (ct : Nat × Nat)
    (v : AnalysisShape) (ri ro : Nat) :
    (mkResult client ct v ri ro).tokens.output = 0 + ct.2 + ro := rfl

/-- **C8.**  The cost attached to a successful result equals
`input * price.input / 1e6 + output * price.output / 1e6` for the price
table entry of the result's model name, and `0` when that model has no
entry (the custom-client case reports model name `"unknown"`, which has no
entry, and its cost is likewise 0) — never a failure. -/
theorem C8_cost_from_price_table (client : Client)
    (rows cols numPasses : Nat) (img : Img) (prompt : Option String)
    (contig : Option Bool) (l0 : Nat × Nat) (res : AnalysisResult)
    (h : analyze client rows cols numPasses img prompt contig l0 = .ok res) :
    res.tokens.cost =
      match pricingFor res.tokens.modelName with
      | some p => (res.tokens.input : ℚ) * p.1 / 1000000 +
          (res.tokens.output : ℚ) * p.2 / 1000000
      | none => 0 := by
  unfold analyze at h
  cases hp : performAnalysis
      (refineResponseOf client rows cols numPasses img prompt contig) with
  | error e =>
    rw [hp] at h
    exact absurd h (fun hh => Except.noConfusion hh)
  | ok v =>
    obtain ⟨verified, ri, ro⟩ := v
    rw [hp] at h
    have hres : mkResult client
        (consensusStageOf client rows cols numPasses img prompt).2
        verified ri ro = res := Except.ok.inj h
    rw [← hres, mkResult_cost, mkResult_modelName, mkResult_input,
      mkResult_output]
    cases hk : client.kind with
    | custom =>
      have hm : effectiveModelName client = "unknown" := by
        unfold effectiveModelName
        rw [hk]
      rw [hm, show pricingFor "unknown" = none from rfl]
      rfl
    | anthropic =>
      have hm : effectiveModelName client = client.modelName := by
        unfold effectiveModelName
        rw [hk]
      rw [hm]
      unfold calculateCost
      cases hpr : pricingFor client.modelName <;> rfl
    | openai =>
      have hm : effectiveModelName client = client.modelName := by
        unfold effectiveModelName
        rw [hk]
      rw [hm]
      unfold calculateCost
      cases hpr : pricingFor client.modelName <;> rfl

/-- An OpenAI-kind client configured with a model that has no price-table
entry. -/
def unpricedClient : Client where
  kind := .openai
  modelName := "gpt-99"
  analyzePair := fun _ => none
  analyze := fun _ _ => .objResp (some { regions := [], summary := "s" }) none

/-- **C8, witness.**  A successful invocation whose model has no price
table entry costs 0 (and still succeeds). -/
theorem C8_cost_from_price_table_witness :
    ∃ res, analyze unpricedClient 1 1 2 (Img.source 0) none none (0, 0) =
        .ok res ∧ res.tokens.cost = 0 := by
  have hok : analyze unpricedClient 1 1 2 (Img.source 0) none none (0, 0) =
      .ok (mkResult unpricedClient
        (consensusStageOf unpricedClient 1 1 2 (Img.source 0) none).2
        { regions := [], summary := "s" } 0 0) := rfl
  refine ⟨_, hok, ?_⟩
  rw [C8_cost_from_price_table _ _ _ _ _ _ _ _ _ hok]
  rw [mkResult_modelName]
  rw [show effectiveModelName unpricedClient = "gpt-99" from rfl]
  rw [show pricingFor "gpt-99" = none from rfl]
